import Mathlib

/-!
Verification of the tool-call extraction and conversation-loop core of the
taracode terminal assistant, as a shallow embedding in Lean.

The embedding follows the Go source:
- internal/assistant/assistant.go: cleanResponse, parseToolCalls, StreamFilter
  (Process / Flush / FullContent), processMessageStreaming,
  processMessageNonStreaming, Manager.AddMessage, DefaultPreferences;
- internal/tools/file_tools.go: Registry (NewRegistry, ExecuteTool).

Strings are modelled as lists of characters (Go iterates runes in the relevant
loops; byte-length checks are modelled with UTF-8 sizes where the source uses
len on a string). The two regular expressions in parseToolCalls are modelled
by direct scanning functions that implement exactly the deterministic matching
those patterns have (both are analysed in comments at their definitions).
Go's encoding/json is modelled by a strict JSON parser that mirrors the
behaviour the extractor depends on: rejection of literal control characters
inside string literals, whole-input decoding, struct decoding with
last-field-wins and unknown fields ignored, and compact marshalling with
sorted object keys.
-/

namespace Taracode

/-- Left-brace character (code point 123), named to keep it out of string literals. -/
def lbrace : Char := Char.ofNat 123

/-- Right-brace character (code point 125). -/
def rbrace : Char := Char.ofNat 125

/-- Left-bracket character. -/
def lbrack : Char := '['

/-- Right-bracket character. -/
def rbrack : Char := ']'

/-- Double-quote character (code point 34). -/
def dquote : Char := Char.ofNat 34

/-- Backslash character (code point 92). -/
def bslash : Char := Char.ofNat 92

/-- Decides whether the first list is a prefix of the second. -/
def isPrefixL : List Char → List Char → Bool
  | [], _ => true
  | _ :: _, [] => false
  | p :: ps, c :: cs => p == c && isPrefixL ps cs

/-- Decides whether the first list is a suffix of the second. -/
def isSuffixL (pat cs : List Char) : Bool :=
  isPrefixL pat.reverse cs.reverse

/-- Decides whether the first list occurs as a contiguous sublist of the second. -/
def isInfixL (pat : List Char) : List Char → Bool
  | [] => isPrefixL pat []
  | c :: rest => isPrefixL pat (c :: rest) || isInfixL pat rest

/-- Splits the haystack at the first occurrence of the pattern, mirroring
Go strings.Index: returns the part before the occurrence and the part after
it (the occurrence itself removed), or none when the pattern does not occur. -/
def splitFirst (pat : List Char) : List Char → Option (List Char × List Char)
  | [] => if isPrefixL pat [] then some ([], []) else none
  | c :: rest =>
    if isPrefixL pat (c :: rest) then some ([], (c :: rest).drop pat.length)
    else
      match splitFirst pat rest with
      | some (pre, post) => some (c :: pre, post)
      | none => none

/-- Whitespace predicate of Go unicode.IsSpace, used by strings.TrimSpace. -/
def isGoSpace (c : Char) : Bool :=
  c == ' ' || c == '\t' || c == '\n' || c == Char.ofNat 11 || c == Char.ofNat 12 ||
  c == '\r' || c == Char.ofNat 133 || c == Char.ofNat 160 || c == Char.ofNat 5760 ||
  (8192 ≤ c.toNat && c.toNat ≤ 8202) || c == Char.ofNat 8232 || c == Char.ofNat 8233 ||
  c == Char.ofNat 8239 || c == Char.ofNat 8287 || c == Char.ofNat 12288

/-- Go strings.TrimSpace on a character list: drop whitespace from both ends. -/
def trimGoL (cs : List Char) : List Char :=
  ((cs.dropWhile isGoSpace).reverse.dropWhile isGoSpace).reverse

/-- Literal think-tag opener. -/
def strThinkOpen : String := "<think>"

/-- Literal think-tag closer. -/
def strThinkClose : String := "</think>"

/-- Think-tag opener as characters. -/
def litThinkOpen : List Char := strThinkOpen.toList

/-- Think-tag closer as characters. -/
def litThinkClose : List Char := strThinkClose.toList

/-- Removes every well-formed think block, mirroring the regex
(?s) on the opener, a non-greedy body, then the closer, applied with
ReplaceAllString: repeatedly drop the span from the first opener through the
nearest closer after it; an opener with no later closer stays. Fuel bounds the
recursion; each replacement consumes at least the opener, so an initial fuel of
the input length suffices. -/
def removeThinkBlocks : Nat → List Char → List Char
  | 0, cs => cs
  | fuel + 1, cs =>
    match splitFirst litThinkOpen cs with
    | none => cs
    | some (before, afterOpen) =>
      match splitFirst litThinkClose afterOpen with
      | none => cs
      | some (_, afterClose) => before ++ removeThinkBlocks fuel afterClose

/-- Models cleanResponse (assistant.go): strip well-formed think blocks, then
drop everything up to and including a remaining unmatched closer, then trim
surrounding whitespace. -/
def cleanResponseL (cs : List Char) : List Char :=
  let c1 := removeThinkBlocks cs.length cs
  let c2 :=
    match splitFirst litThinkClose c1 with
    | some (_, afterClose) => afterClose
    | none => c1
  trimGoL c2

/-- String-level wrapper for cleanResponseL. -/
def cleanResponse (s : String) : String :=
  String.mk (cleanResponseL s.toList)

/-- Whitespace class of the Go regexp escape used in both tool-call patterns
(RE2 Perl class: tab, newline, form feed, carriage return, space). -/
def wsRe (c : Char) : Bool :=
  c == '\t' || c == '\n' || c == Char.ofNat 12 || c == '\r' || c == ' '

/-- Drops leading regex whitespace. -/
def dropWsRe : List Char → List Char
  | [] => []
  | c :: rest => if wsRe c then dropWsRe rest else c :: rest

/-- Consumes one expected character. -/
def expectChar (x : Char) : List Char → Option (List Char)
  | [] => none
  | c :: rest => if c == x then some rest else none

/-- Consumes an expected literal. -/
def expectLit (lit cs : List Char) : Option (List Char) :=
  if isPrefixL lit cs then some (cs.drop lit.length) else none

/-- Consumes the rest of a non-empty run of non-quote characters followed by a
closing double quote, returning the run content and what follows the quote. -/
def takeUntilQuoteAux : List Char → Option (List Char × List Char)
  | [] => none
  | c :: rest =>
    if c == dquote then some ([], rest)
    else
      match takeUntilQuoteAux rest with
      | some (content, after) => some (c :: content, after)
      | none => none

/-- Consumes one-or-more non-quote characters then a closing double quote,
modelling the quoted group of the singular pattern (its content class excludes
the quote and requires at least one character). -/
def takeUntilQuote : List Char → Option (List Char × List Char)
  | [] => none
  | c :: rest =>
    if c == dquote then none
    else
      match takeUntilQuoteAux rest with
      | some (content, after) => some (c :: content, after)
      | none => none

/-- Consumes zero-or-more non-brace characters then a closing right brace,
modelling the params group of the singular pattern: its content class excludes
both braces, so the group must close at the first brace met, and that brace
must be a right brace. Returns what follows the right brace. -/
def takeUntilBrace : List Char → Option (List Char)
  | [] => none
  | c :: rest =>
    if c == rbrace then some rest
    else if c == lbrace then none
    else takeUntilBrace rest

/-- The characters of the JSON key tool, with its quotes. -/
def litToolKey : List Char := [dquote, 't', 'o', 'o', 'l', dquote]

/-- The characters of the JSON key params, with its quotes. -/
def litParamsKey : List Char := [dquote, 'p', 'a', 'r', 'a', 'm', 's', dquote]

/-- Tail of the singular pattern from the params group on: the brace-free
object in braces (the opening brace already consumed), optional whitespace,
and the final closing brace. -/
def tmTail3 (cs : List Char) : Option (List Char) := do
  let r ← takeUntilBrace cs
  let r := dropWsRe r
  expectChar rbrace r

/-- Tail of the singular pattern after the closing quote of the tool name: a
comma with optional whitespace, the quoted key params, a colon with optional
whitespace, the opening brace of the params group, then the rest. -/
def tmTail2 (cs : List Char) : Option (List Char) := do
  let r := dropWsRe cs
  let r ← expectChar ',' r
  let r := dropWsRe r
  let r ← expectLit litParamsKey r
  let r := dropWsRe r
  let r ← expectChar ':' r
  let r := dropWsRe r
  let r ← expectChar lbrace r
  tmTail3 r

/-- Tail of the singular pattern from the quoted non-empty tool name on (the
opening quote already consumed). -/
def tmTail1 (cs : List Char) : Option (List Char) := do
  let pr ← takeUntilQuote cs
  tmTail2 pr.2

/-- Attempts to match the singular tool-call pattern of parseToolCalls at the
head of the input. The Go pattern is an open brace, optional whitespace, the
quoted key tool, a colon with optional whitespace around it, a quoted non-empty
name, a comma with optional whitespace, the quoted key params, a colon with
optional whitespace, a brace-free object in braces, optional whitespace, and a
closing brace. Every quantified class in it is disjoint from what follows it,
so matching at a fixed start is deterministic; this function is that
deterministic matcher, staged as the prefix up to the tool name then the
tails. Returns the remainder after the match. -/
def tryMatchSingular (cs : List Char) : Option (List Char) := do
  let r ← expectChar lbrace cs
  let r := dropWsRe r
  let r ← expectLit litToolKey r
  let r := dropWsRe r
  let r ← expectChar ':' r
  let r := dropWsRe r
  let r ← expectChar dquote r
  tmTail1 r

/-- One singular-pattern match: its character offset in the scanned text and
the matched span (the whole object text, match group zero in Go). -/
structure SMatch where
  pos : Nat
  span : List Char
deriving Repr, DecidableEq

/-- Scans the text left to right for singular-pattern matches, mirroring
FindAllStringSubmatch: at each offset try the deterministic matcher; on a match
record it and continue scanning right after it (matches do not overlap), else
advance one character. Fuel bounds the recursion; every step consumes at least
one character, so fuel equal to the input length suffices. -/
def scanSingularAux : Nat → List Char → Nat → List SMatch
  | 0, _, _ => []
  | _ + 1, [], _ => []
  | fuel + 1, c :: tl, pos =>
    match tryMatchSingular (c :: tl) with
    | some rest =>
      let n := (c :: tl).length - rest.length
      ⟨pos, (c :: tl).take n⟩ :: scanSingularAux fuel rest (pos + n)
    | none => scanSingularAux fuel tl (pos + 1)

/-- All singular-pattern matches of the cleaned text, leftmost first. -/
def scanSingular (cs : List Char) : List SMatch :=
  scanSingularAux cs.length cs 0

/-- Splits at the first right bracket: the content before it and the rest after
it. Used by the array-pattern matcher, whose repeated group can never consume a
bracket, so a candidate match starting at a left bracket must end at the first
right bracket after it. -/
def splitAtRBracket : List Char → Option (List Char × List Char)
  | [] => none
  | c :: rest =>
    if c == rbrack then some ([], rest)
    else
      match splitAtRBracket rest with
      | some (inner, after) => some (c :: inner, after)
      | none => none

mutual

/-- Decides whether the given characters can be fully consumed by one-or-more
repetitions of the array-pattern group: each repetition is an open brace, a
bracket-free run containing the quoted key tool, a close brace, then optional
whitespace, an optional comma, and optional whitespace. The run may contain
braces, so the closing brace of a repetition is ambiguous; this search tries
every candidate, which is exactly the backtracking the pattern permits (only
existence of a decomposition matters for where FindString ends). Fuel bounds
recursion depth; depth grows by at most one per consumed character. -/
def carveReps : Nat → List Char → Bool
  | 0, _ => false
  | fuel + 1, cs =>
    match cs with
    | [] => false
    | c :: tl => c == lbrace && carveClose fuel tl []

/-- Scans for a candidate closing brace of the current repetition, keeping the
reversed middle seen so far. At each close candidate the repetition succeeds if
the middle contains the quoted key tool and the rest carves; otherwise the
close brace joins the middle and scanning continues. Brackets abort: the
character class of the middle excludes them. -/
def carveClose : Nat → List Char → List Char → Bool
  | 0, _, _ => false
  | _ + 1, [], _ => false
  | fuel + 1, c :: tl, midRev =>
    if c == rbrace then
      (isInfixL litToolKey midRev.reverse && carveSep fuel tl) || carveClose fuel tl (c :: midRev)
    else if c == lbrack || c == rbrack then false
    else carveClose fuel tl (c :: midRev)

/-- Consumes the separator after a repetition (optional whitespace, optional
comma, optional whitespace); succeeds if the input is exhausted or another
repetition follows. -/
def carveSep : Nat → List Char → Bool
  | 0, _ => false
  | fuel + 1, cs =>
    let r := dropWsRe cs
    let r :=
      match r with
      | c :: tl => if c == ',' then dropWsRe tl else r
      | [] => r
    match r with
    | [] => true
    | _ :: _ => carveReps fuel r

end

/-- Finds the first match of the array pattern of parseToolCalls, mirroring
FindString: scan offsets left to right; at a left bracket the match, if any,
spans to the first right bracket after it, provided the content between (after
leading whitespace) decomposes into repetitions of the group; on failure
continue at the next offset. If no right bracket follows a left bracket then
nothing to the right can match either. -/
def findArrayAux : Nat → List Char → Option (List Char)
  | 0, _ => none
  | _ + 1, [] => none
  | fuel + 1, c :: tl =>
    if c == lbrack then
      match splitAtRBracket tl with
      | none => none
      | some (inner, _) =>
        if carveReps (2 * inner.length + 4) (dropWsRe inner) then
          some (c :: (inner ++ [rbrack]))
        else findArrayAux fuel tl
    else findArrayAux fuel tl

/-- The first array-pattern match of the cleaned text, if any. -/
def findArray (cs : List Char) : Option (List Char) :=
  findArrayAux cs.length cs

/-- A decoded JSON value, as Go encoding/json produces for an interface
value: objects as key-value maps, arrays, strings (with escapes already
decoded), numbers (kept here as their source lexeme; no claim in this
development depends on float re-formatting), booleans and null. -/
inductive JValue where
  | jnull : JValue
  | jbool : Bool → JValue
  | jnum : List Char → JValue
  | jstr : List Char → JValue
  | jarr : List JValue → JValue
  | jobj : List (List Char × JValue) → JValue

/-- JSON whitespace accepted between tokens by encoding/json. -/
def isJsonWs (c : Char) : Bool :=
  c == ' ' || c == '\t' || c == '\n' || c == '\r'

/-- Drops leading JSON whitespace. -/
def dropJsonWs : List Char → List Char
  | [] => []
  | c :: rest => if isJsonWs c then dropJsonWs rest else c :: rest

/-- Value of one hex digit. -/
def hexDigit (c : Char) : Option Nat :=
  if '0' ≤ c && c ≤ '9' then some (c.toNat - 48)
  else if 'a' ≤ c && c ≤ 'f' then some (c.toNat - 97 + 10)
  else if 'A' ≤ c && c ≤ 'F' then some (c.toNat - 65 + 10)
  else none

/-- Value of four hex digits. -/
def hex4 (a b c d : Char) : Option Nat := do
  let va ← hexDigit a
  let vb ← hexDigit b
  let vc ← hexDigit c
  let vd ← hexDigit d
  pure (((va * 16 + vb) * 16 + vc) * 16 + vd)

/-- The Unicode replacement character, substituted by Go for lone surrogates. -/
def replacementChar : Char := Char.ofNat 65533

/-- Parses the body of a JSON string literal after its opening quote,
mirroring encoding/json: a literal control character below 0x20 is rejected;
the escapes are quote, backslash, slash, b, f, n, r, t and u-hex, with
surrogate pairs combined and lone surrogates replaced. Returns the decoded
content and the input after the closing quote. Fuel bounds the recursion; one
unit per consumed character suffices. -/
def parseStrBodyAux : Nat → List Char → Option (List Char × List Char)
  | 0, _ => none
  | _ + 1, [] => none
  | fuel + 1, c :: rest =>
    if c == dquote then some ([], rest)
    else if c == bslash then
      match rest with
      | [] => none
      | e :: rest2 =>
        if e == dquote then
          match parseStrBodyAux fuel rest2 with
          | some (s, r) => some (dquote :: s, r)
          | none => none
        else if e == bslash then
          match parseStrBodyAux fuel rest2 with
          | some (s, r) => some (bslash :: s, r)
          | none => none
        else if e == '/' then
          match parseStrBodyAux fuel rest2 with
          | some (s, r) => some ('/' :: s, r)
          | none => none
        else if e == 'b' then
          match parseStrBodyAux fuel rest2 with
          | some (s, r) => some (Char.ofNat 8 :: s, r)
          | none => none
        else if e == 'f' then
          match parseStrBodyAux fuel rest2 with
          | some (s, r) => some (Char.ofNat 12 :: s, r)
          | none => none
        else if e == 'n' then
          match parseStrBodyAux fuel rest2 with
          | some (s, r) => some ('\n' :: s, r)
          | none => none
        else if e == 'r' then
          match parseStrBodyAux fuel rest2 with
          | some (s, r) => some ('\r' :: s, r)
          | none => none
        else if e == 't' then
          match parseStrBodyAux fuel rest2 with
          | some (s, r) => some ('\t' :: s, r)
          | none => none
        else if e == 'u' then
          match rest2 with
          | h1 :: h2 :: h3 :: h4 :: rest3 =>
            match hex4 h1 h2 h3 h4 with
            | none => none
            | some n =>
              if 55296 ≤ n && n ≤ 56319 then
                match rest3 with
                | b1 :: u1 :: k1 :: k2 :: k3 :: k4 :: rest4 =>
                  if b1 == bslash && u1 == 'u' then
                    match hex4 k1 k2 k3 k4 with
                    | some m =>
                      if 56320 ≤ m && m ≤ 57343 then
                        match parseStrBodyAux fuel rest4 with
                        | some (s, r) =>
                          some (Char.ofNat (65536 + (n - 55296) * 1024 + (m - 56320)) :: s, r)
                        | none => none
                      else
                        match parseStrBodyAux fuel rest3 with
                        | some (s, r) => some (replacementChar :: s, r)
                        | none => none
                    | none =>
                      match parseStrBodyAux fuel rest3 with
                      | some (s, r) => some (replacementChar :: s, r)
                      | none => none
                  else
                    match parseStrBodyAux fuel rest3 with
                    | some (s, r) => some (replacementChar :: s, r)
                    | none => none
                | _ =>
                  match parseStrBodyAux fuel rest3 with
                  | some (s, r) => some (replacementChar :: s, r)
                  | none => none
              else if 56320 ≤ n && n ≤ 57343 then
                match parseStrBodyAux fuel rest3 with
                | some (s, r) => some (replacementChar :: s, r)
                | none => none
              else
                match parseStrBodyAux fuel rest3 with
                | some (s, r) => some (Char.ofNat n :: s, r)
                | none => none
          | _ => none
        else none
    else if c.toNat < 32 then none
    else
      match parseStrBodyAux fuel rest with
      | some (s, r) => some (c :: s, r)
      | none => none

/-- Parses a JSON string body with sufficient fuel. -/
def parseStrBody (cs : List Char) : Option (List Char × List Char) :=
  parseStrBodyAux (cs.length + 1) cs

/-- Decimal digit test. -/
def isDigitC (c : Char) : Bool := '0' ≤ c && c ≤ '9'

/-- Takes a leading run of decimal digits. -/
def takeDigits : List Char → List Char × List Char
  | [] => ([], [])
  | c :: rest =>
    if isDigitC c then
      let (ds, r) := takeDigits rest
      (c :: ds, r)
    else ([], c :: rest)

/-- Lexes a JSON number per the RFC grammar enforced by encoding/json,
returning its lexeme and the rest. -/
def lexNumber (cs : List Char) : Option (List Char × List Char) :=
  let (sign, cs1) :=
    match cs with
    | c :: r => if c == '-' then (([c] : List Char), r) else (([] : List Char), cs)
    | [] => ([], cs)
  match cs1 with
  | [] => none
  | c :: r =>
    if c == '0' then
      let (frac, cs2) := lexFracExp r
      match frac with
      | none => none
      | some f => some (sign ++ [c] ++ f, cs2)
    else if isDigitC c then
      let (ds, r2) := takeDigits r
      let (frac, cs2) := lexFracExp r2
      match frac with
      | none => none
      | some f => some (sign ++ [c] ++ ds ++ f, cs2)
    else none
where
  /-- Lexes the optional fraction and exponent parts. -/
  lexFracExp (cs : List Char) : Option (List Char) × List Char :=
    let (fracPart, cs1) :=
      match cs with
      | c :: r =>
        if c == '.' then
          let (ds, r2) := takeDigits r
          if ds.isEmpty then (none, cs) else (some ([c] ++ ds), r2)
        else (some ([] : List Char), cs)
      | [] => (some ([] : List Char), cs)
    match fracPart with
    | none => (none, cs)
    | some f =>
      match cs1 with
      | c :: r =>
        if c == 'e' || c == 'E' then
          let (sgn, r1) :=
            match r with
            | s :: r2 => if s == '+' || s == '-' then (([s] : List Char), r2) else (([] : List Char), r)
            | [] => ([], r)
          let (ds, r2) := takeDigits r1
          if ds.isEmpty then (none, cs1) else (some (f ++ [c] ++ sgn ++ ds), r2)
        else (some f, cs1)
      | [] => (some f, cs1)

mutual

/-- Parses one JSON value, mirroring encoding/json syntax. Fuel bounds the
recursion; each nesting level consumes at least one character, so fuel equal
to the input length plus one suffices. -/
def parseVal : Nat → List Char → Option (JValue × List Char)
  | 0, _ => none
  | fuel + 1, cs =>
    match dropJsonWs cs with
    | [] => none
    | c :: rest =>
      if c == lbrace then
        match dropJsonWs rest with
        | c2 :: rest2 =>
          if c2 == rbrace then some (JValue.jobj [], rest2)
          else parseObjFields fuel (c2 :: rest2)
        | [] => none
      else if c == lbrack then
        match dropJsonWs rest with
        | c2 :: rest2 =>
          if c2 == rbrack then some (JValue.jarr [], rest2)
          else parseArrElems fuel (c2 :: rest2)
        | [] => none
      else if c == dquote then
        match parseStrBody rest with
        | some (s, r) => some (JValue.jstr s, r)
        | none => none
      else if c == 't' then
        match expectLit (['r', 'u', 'e'] : List Char) rest with
        | some r => some (JValue.jbool true, r)
        | none => none
      else if c == 'f' then
        match expectLit (['a', 'l', 's', 'e'] : List Char) rest with
        | some r => some (JValue.jbool false, r)
        | none => none
      else if c == 'n' then
        match expectLit (['u', 'l', 'l'] : List Char) rest with
        | some r => some (JValue.jnull, r)
        | none => none
      else
        match lexNumber (c :: rest) with
        | some (raw, r) => some (JValue.jnum raw, r)
        | none => none

/-- Parses the fields of a JSON object after its opening brace, when the
object is non-empty. Expects to start at the first key. -/
def parseObjFields : Nat → List Char → Option (JValue × List Char)
  | 0, _ => none
  | fuel + 1, cs =>
    match cs with
    | c :: rest =>
      if c == dquote then
        match parseStrBody rest with
        | none => none
        | some (key, r1) =>
          match dropJsonWs r1 with
          | c2 :: r2 =>
            if c2 == ':' then
              match parseVal fuel r2 with
              | none => none
              | some (v, r3) =>
                match dropJsonWs r3 with
                | c3 :: r4 =>
                  if c3 == rbrace then some (JValue.jobj [(key, v)], r4)
                  else if c3 == ',' then
                    match parseObjFields fuel (dropJsonWs r4) with
                    | some (JValue.jobj fields, r5) => some (JValue.jobj ((key, v) :: fields), r5)
                    | _ => none
                  else none
                | [] => none
            else none
          | [] => none
      else none
    | [] => none

/-- Parses the elements of a JSON array after its opening bracket, when the
array is non-empty. Expects to start at the first element. -/
def parseArrElems : Nat → List Char → Option (JValue × List Char)
  | 0, _ => none
  | fuel + 1, cs =>
    match parseVal fuel cs with
    | none => none
    | some (v, r1) =>
      match dropJsonWs r1 with
      | c2 :: r2 =>
        if c2 == rbrack then some (JValue.jarr [v], r2)
        else if c2 == ',' then
          match parseArrElems fuel r2 with
          | some (JValue.jarr elems, r3) => some (JValue.jarr (v :: elems), r3)
          | _ => none
        else none
      | [] => none

end

/-- Decodes a whole input as one JSON value, mirroring json.Unmarshal: one
value, then nothing but whitespace. -/
def jsonDecode (cs : List Char) : Option JValue :=
  match parseVal (cs.length + 1) cs with
  | some (v, rest) =>
    match dropJsonWs rest with
    | [] => some v
    | _ :: _ => none
  | none => none

/-- Lexicographic order on keys by code point, which coincides with the
byte-wise UTF-8 order Go uses when marshalling map keys. -/
def keyLt : List Char → List Char → Bool
  | [], [] => false
  | [], _ :: _ => true
  | _ :: _, [] => false
  | a :: as, b :: bs => a.toNat < b.toNat || (a == b && keyLt as bs)

/-- Whether an association list binds a key. -/
def hasKey (k : List Char) : List (List Char × JValue) → Bool
  | [] => false
  | (k2, _) :: rest => k == k2 || hasKey k rest

/-- Keeps only the last binding of each key, as decoding a JSON object into a
Go map does when keys repeat. -/
def dedupLastWins : List (List Char × JValue) → List (List Char × JValue)
  | [] => []
  | (k, v) :: rest =>
    if hasKey k rest then dedupLastWins rest else (k, v) :: dedupLastWins rest

/-- Inserts a field into a key-sorted field list. -/
def insertField (k : List Char) (v : JValue) : List (List Char × JValue) → List (List Char × JValue)
  | [] => [(k, v)]
  | (k2, v2) :: rest =>
    if keyLt k k2 then (k, v) :: (k2, v2) :: rest
    else (k2, v2) :: insertField k v rest

/-- Sorts fields by key. -/
def sortFields : List (List Char × JValue) → List (List Char × JValue)
  | [] => []
  | (k, v) :: rest => insertField k v (sortFields rest)

mutual

/-- Canonicalizes a decoded JSON value the way Go represents it in a map:
object fields keep only the last binding per key and are put in the sorted
order Marshal would emit, recursively. -/
def canonVal : JValue → JValue
  | JValue.jnull => JValue.jnull
  | JValue.jbool b => JValue.jbool b
  | JValue.jnum raw => JValue.jnum raw
  | JValue.jstr s => JValue.jstr s
  | JValue.jarr xs => JValue.jarr (canonList xs)
  | JValue.jobj fs => JValue.jobj (sortFields (dedupLastWins (canonFields fs)))

/-- Canonicalizes every element of an array. -/
def canonList : List JValue → List JValue
  | [] => []
  | v :: vs => canonVal v :: canonList vs

/-- Canonicalizes every field value of an object. -/
def canonFields : List (List Char × JValue) → List (List Char × JValue)
  | [] => []
  | (k, v) :: fs => (k, canonVal v) :: canonFields fs

end

/-- Lowercase hex digit. -/
def hexChar (n : Nat) : Char :=
  if n < 10 then Char.ofNat (48 + n) else Char.ofNat (97 + n - 10)

/-- Escapes one character the way json.Marshal renders string contents with
its default HTML escaping: quote and backslash are backslash-escaped; newline,
carriage return and tab use their short escapes; other control characters use
u-hex escapes; the HTML-sensitive angle brackets and ampersand and the line
and paragraph separators use u-hex escapes; everything else stands itself. -/
def marshalChar (c : Char) : List Char :=
  if c == dquote then [bslash, dquote]
  else if c == bslash then [bslash, bslash]
  else if c == '\n' then [bslash, 'n']
  else if c == '\r' then [bslash, 'r']
  else if c == '\t' then [bslash, 't']
  else if c.toNat < 32 then
    [bslash, 'u', '0', '0', hexChar (c.toNat / 16), hexChar (c.toNat % 16)]
  else if c == '<' then [bslash, 'u', '0', '0', '3', 'c']
  else if c == '>' then [bslash, 'u', '0', '0', '3', 'e']
  else if c == '&' then [bslash, 'u', '0', '0', '2', '6']
  else if c == Char.ofNat 8232 then [bslash, 'u', '2', '0', '2', '8']
  else if c == Char.ofNat 8233 then [bslash, 'u', '2', '0', '2', '9']
  else [c]

/-- Renders string contents. -/
def marshalStrBody : List Char → List Char
  | [] => []
  | c :: rest => marshalChar c ++ marshalStrBody rest

/-- Renders a JSON string with its quotes. -/
def marshalStr (s : List Char) : List Char :=
  dquote :: (marshalStrBody s ++ [dquote])

mutual

/-- Renders a canonical JSON value compactly, as json.Marshal does. Numbers
are emitted as their source lexeme; no theorem in this development compares
marshalled numbers, so Go's float re-formatting is not reproduced. -/
def marshalVal : JValue → List Char
  | JValue.jnull => ['n', 'u', 'l', 'l']
  | JValue.jbool true => ['t', 'r', 'u', 'e']
  | JValue.jbool false => ['f', 'a', 'l', 's', 'e']
  | JValue.jnum raw => raw
  | JValue.jstr s => marshalStr s
  | JValue.jarr xs => lbrack :: (marshalList xs ++ [rbrack])
  | JValue.jobj fs => lbrace :: (marshalFields fs ++ [rbrace])

/-- Renders array elements separated by commas. -/
def marshalList : List JValue → List Char
  | [] => []
  | [v] => marshalVal v
  | v :: v2 :: vs => marshalVal v ++ (',' :: marshalList (v2 :: vs))

/-- Renders object fields separated by commas. -/
def marshalFields : List (List Char × JValue) → List Char
  | [] => []
  | [(k, v)] => marshalStr k ++ (':' :: marshalVal v)
  | (k, v) :: f2 :: fs => marshalStr k ++ (':' :: marshalVal v) ++ (',' :: marshalFields (f2 :: fs))

end

/-- A parsed tool call, mirroring the ToolCall struct: a tool name and an
untyped params map. The params are none when the field was absent (a nil Go
map) and otherwise the canonical field list. -/
structure ToolCallT where
  tool : String
  params : Option (List (List Char × JValue))

/-- Renders a ToolCall as json.Marshal renders the struct: the tool field then
the params field, a nil map rendering as null. This is the dedup key used for
array-form calls. -/
def marshalToolCall (tc : ToolCallT) : List Char :=
  (lbrace :: litToolKey) ++ (':' :: marshalStr tc.tool.toList) ++ (',' :: litParamsKey) ++
    (':' ::
      (match tc.params with
       | none => (['n', 'u', 'l', 'l'] : List Char)
       | some fs => marshalVal (JValue.jobj fs))) ++ [rbrace]

/-- ASCII case-insensitive character comparison, enough for matching the
lowercase struct tags tool and params. -/
def eqFoldChar (a b : Char) : Bool :=
  a == b ||
  (65 ≤ a.toNat && a.toNat ≤ 90 && b.toNat == a.toNat + 32) ||
  (65 ≤ b.toNat && b.toNat ≤ 90 && a.toNat == b.toNat + 32)

/-- ASCII case-insensitive key comparison, as Unmarshal matches object keys to
struct field tags when no exact match exists. -/
def eqFoldKey : List Char → List Char → Bool
  | [], [] => true
  | a :: as, b :: bs => eqFoldChar a b && eqFoldKey as bs
  | _, _ => false

/-- The tool tag characters. -/
def litTool : List Char := ['t', 'o', 'o', 'l']

/-- The params tag characters. -/
def litParams : List Char := ['p', 'a', 'r', 'a', 'm', 's']

/-- Applies the fields of a decoded object to a ToolCall struct the way
Unmarshal does: fields are processed in order, later bindings of the same
field overwrite earlier ones, unknown keys are ignored, a null value leaves
the field untouched, and a type mismatch on a known field fails the whole
decode. -/
def applyFields : ToolCallT → List (List Char × JValue) → Option ToolCallT
  | tc, [] => some tc
  | tc, (k, v) :: rest =>
    if eqFoldKey k litTool then
      match v with
      | JValue.jstr s => applyFields { tc with tool := String.mk s } rest
      | JValue.jnull => applyFields tc rest
      | _ => none
    else if eqFoldKey k litParams then
      match v with
      | JValue.jobj fs =>
        applyFields { tc with params := some (sortFields (dedupLastWins (canonFields fs))) } rest
      | JValue.jnull => applyFields tc rest
      | _ => none
    else applyFields tc rest

/-- The zero ToolCall value. -/
def emptyToolCall : ToolCallT := { tool := "", params := none }

/-- Decodes one JSON value as a ToolCall struct. -/
def decodeToolCallVal : JValue → Option ToolCallT
  | JValue.jnull => some emptyToolCall
  | JValue.jobj fs => applyFields emptyToolCall fs
  | _ => none

/-- Models json.Unmarshal of a span into a ToolCall. -/
def decodeToolCall (cs : List Char) : Option ToolCallT :=
  match jsonDecode cs with
  | some v => decodeToolCallVal v
  | none => none

/-- Decodes elements of a JSON array as ToolCall structs; any element failing
fails the whole array, as Unmarshal into a slice reports the saved error. -/
def decodeToolCallElems : List JValue → Option (List ToolCallT)
  | [] => some []
  | v :: vs =>
    match decodeToolCallVal v with
    | some tc =>
      match decodeToolCallElems vs with
      | some tcs => some (tc :: tcs)
      | none => none
    | none => none

/-- Models json.Unmarshal of a span into a slice of ToolCall. -/
def decodeToolCallArray (cs : List Char) : Option (List ToolCallT) :=
  match jsonDecode cs with
  | some (JValue.jarr vs) => decodeToolCallElems vs
  | some JValue.jnull => some []
  | _ => none

/-- Folds the singular-pattern matches exactly as the first loop of
parseToolCalls does: unmarshal each span, keep calls whose tool name is
non-empty, and deduplicate on the raw span text. Returns the collected calls
and the seen keys. -/
def collectSingular : List SMatch → List ToolCallT × List (List Char) → List ToolCallT × List (List Char)
  | [], acc => acc
  | m :: rest, (calls, seen) =>
    match decodeToolCall m.span with
    | some tc =>
      if tc.tool ≠ "" then
        if seen.contains m.span then collectSingular rest (calls, seen)
        else collectSingular rest (calls ++ [tc], m.span :: seen)
      else collectSingular rest (calls, seen)
    | none => collectSingular rest (calls, seen)

/-- Folds the decoded array-form calls exactly as the second loop of
parseToolCalls does: keep calls whose tool name is non-empty, deduplicating on
the marshalled struct text against the same seen set. -/
def collectArray : List ToolCallT → List ToolCallT × List (List Char) → List ToolCallT × List (List Char)
  | [], acc => acc
  | tc :: rest, (calls, seen) =>
    if tc.tool ≠ "" then
      let key := marshalToolCall tc
      if seen.contains key then collectArray rest (calls, seen)
      else collectArray rest (calls ++ [tc], key :: seen)
    else collectArray rest (calls, seen)

/-- Models parseToolCalls (assistant.go): clean the response, collect
singular-pattern matches with raw-text dedup keys, then array-form calls with
marshalled dedup keys, then derive the text shown before the first call: the
whole cleaned text when no calls were found, else the trimmed cleaned text up
to the offset of the first singular-pattern match, or empty when there is no
such match or it starts at offset zero. -/
def parseToolCallsL (response : List Char) : List ToolCallT × List Char :=
  let cleaned := cleanResponseL response
  let ms := scanSingular cleaned
  let acc1 := collectSingular ms ([], [])
  let acc2 :=
    match findArray cleaned with
    | some arrText =>
      match decodeToolCallArray arrText with
      | some tcs => collectArray tcs acc1
      | none => acc1
    | none => acc1
  let toolCalls := acc2.1
  match toolCalls with
  | [] => ([], cleaned)
  | _ :: _ =>
    match ms with
    | m :: _ =>
      if m.pos > 0 then (toolCalls, trimGoL (cleaned.take m.pos))
      else (toolCalls, [])
    | [] => (toolCalls, [])

/-- String-level parseToolCalls: the extracted calls and the leading prose. -/
def parseToolCalls (s : String) : List ToolCallT × String :=
  let r := parseToolCallsL s.toList
  (r.1, String.mk r.2)

/-- UTF-8 byte length of a character list, matching Go len on the string. -/
def utf8Len (cs : List Char) : Nat :=
  (cs.map Char.utf8Size).sum

/-- The tag-tracking part of the StreamFilter state: the lookahead buffer and
the inside-think flag. The full transcript is kept separately, as in the
struct. -/
structure SFState where
  buffer : List Char
  inThinkTag : Bool
deriving Repr, DecidableEq

/-- The think-tag opener without its closing angle bracket, used by the
partial-match branch of Process. -/
def litThinkOpenPartial : List Char := ['<', 't', 'h', 'i', 'n', 'k']

/-- One character step of StreamFilter.Process, following the loop body:
inside a think block the character joins the buffer and the block ends when
the buffer gains the closer as suffix; outside, the character joins the buffer
and the buffer is kept while it can still be (or become) the opener - a prefix
of the opener, or starting with an angle bracket and under seven bytes - is
discarded when it completes the opener, and is flushed to the display
otherwise. Returns the new state and the displayed characters. -/
def sfCharStep (st : SFState) (c : Char) : SFState × List Char :=
  if st.inThinkTag then
    let buf := st.buffer ++ [c]
    if isSuffixL litThinkClose buf then (⟨[], false⟩, [])
    else (⟨buf, true⟩, [])
  else
    let buf := st.buffer ++ [c]
    if isPrefixL buf litThinkOpen then
      if buf == litThinkOpen then (⟨[], true⟩, [])
      else (⟨buf, false⟩, [])
    else if isPrefixL buf litThinkOpenPartial then (⟨buf, false⟩, [])
    else if decide (buf.length > 0) && (buf.headD ' ' == '<') && decide (utf8Len buf < 7) then
      (⟨buf, false⟩, [])
    else (⟨[], false⟩, buf)

/-- Runs the character loop of Process over a chunk, concatenating displays. -/
def sfProcessChars (st : SFState) : List Char → SFState × List Char
  | [] => (st, [])
  | c :: rest =>
    let r1 := sfCharStep st c
    let r2 := sfProcessChars r1.1 rest
    (r2.1, r1.2 ++ r2.2)

/-- The StreamFilter: tag-tracking state plus the always-growing unfiltered
transcript. -/
structure StreamFilter where
  st : SFState
  fullContent : List Char

/-- A fresh StreamFilter, as NewStreamFilter returns. -/
def newStreamFilter : StreamFilter :=
  { st := ⟨[], false⟩, fullContent := [] }

/-- StreamFilter.Process: append the chunk to the transcript, run the
character loop, return the displayable part. -/
def sfProcess (f : StreamFilter) (chunk : String) : StreamFilter × String :=
  let r := sfProcessChars f.st chunk.toList
  ({ st := r.1, fullContent := f.fullContent ++ chunk.toList }, String.mk r.2)

/-- StreamFilter.Flush: emit and reset the lookahead buffer. -/
def sfFlush (f : StreamFilter) : StreamFilter × String :=
  ({ f with st := ⟨[], f.st.inThinkTag⟩ }, String.mk f.st.buffer)

/-- StreamFilter.FullContent: the whole unfiltered transcript. -/
def sfFullContent (f : StreamFilter) : String :=
  String.mk f.fullContent

/-- The tool names registered by NewRegistry (file_tools.go), in registration
order. -/
def registeredToolNames : List String :=
  ["read_file", "write_file", "append_file", "edit_file", "insert_lines",
   "replace_lines", "delete_lines", "copy_file", "move_file", "delete_file",
   "create_directory", "list_files", "find_files",
   "execute_command", "search_files",
   "git_status", "git_diff", "git_log", "git_add", "git_commit", "git_branch"]

/-- The executors behind the registered tools are filesystem/git/shell
collaborators outside this core; they are a parameter of the model. -/
def ToolImpl : Type :=
  String → Option (List (List Char × JValue)) → Except String String

/-- Models Registry.ExecuteTool: look the name up; unknown names report the
error unknown tool with the name, known names run their executor. -/
def executeToolReg (impl : ToolImpl) (name : String) (params : Option (List (List Char × JValue))) : Except String String :=
  if registeredToolNames.contains name then impl name params
  else Except.error ("unknown tool: " ++ name)

/-- One message of the conversation history. -/
structure ChatMsg where
  role : String
  content : String
deriving Repr, DecidableEq

/-- The assistant role constant. -/
def roleAssistant : String := "assistant"

/-- The user role constant. -/
def roleUser : String := "user"

/-- Renders one tool result block exactly as the orchestrator loops do: with
more than one call in the iteration the block is numbered with the tool name,
otherwise it is the single unnumbered block; a tool error becomes the textual
result Error with the message. -/
def formatResultBlock (impl : ToolImpl) (totalTools idx : Nat) (tc : ToolCallT) : String :=
  let result :=
    match executeToolReg impl tc.tool tc.params with
    | Except.ok r => r
    | Except.error e => "Error: " ++ e
  if totalTools > 1 then
    "[" ++ Nat.repr (idx + 1) ++ "] " ++ tc.tool ++ " result:\n" ++ result ++ "\n\n"
  else
    "Tool result:\n" ++ result

/-- Concatenates the result blocks of an iteration in call order, mirroring
the aggregation loop. -/
def buildAllResults (impl : ToolImpl) (totalTools idx : Nat) : List ToolCallT → String
  | [] => ""
  | tc :: rest => formatResultBlock impl totalTools idx tc ++ buildAllResults impl totalTools (idx + 1) rest

/-- The outcome of one orchestrator iteration: the updated conversation, the
calls dispatched in order, and whether the turn ended (no tool calls). -/
structure IterOut where
  conv : List ChatMsg
  executed : List (String × Option (List (List Char × JValue)))
  done : Bool

/-- One iteration of the conversation loop after the full response text is in
hand, shared verbatim between processMessageStreaming (assistant.go lines
1214-1314) and processMessageNonStreaming (lines 1377-1457): extract tool
calls; with none, append the assistant message and stop the turn; otherwise
append the assistant message, execute every call in extracted order, and
append the aggregated results as one user-role message. -/
def runIteration (impl : ToolImpl) (conv : List ChatMsg) (fullResponse : String) : IterOut :=
  let pr := parseToolCalls fullResponse
  match pr.1 with
  | [] => ⟨conv ++ [⟨roleAssistant, fullResponse⟩], [], true⟩
  | tc :: rest =>
    let toolCalls := tc :: rest
    let conv1 := conv ++ [⟨roleAssistant, fullResponse⟩]
    let allResults := buildAllResults impl toolCalls.length 0 toolCalls
    ⟨conv1 ++ [⟨roleUser, allResults⟩],
     toolCalls.map (fun t => (t.tool, t.params)), false⟩

/-- A trace of one processed user turn: the history snapshots sent to the
model, one per request, the calls dispatched in order, and the final
conversation. -/
structure LoopTrace where
  requests : List (List ChatMsg)
  executed : List (String × Option (List (List Char × JValue)))
  conv : List ChatMsg

/-- The iteration cap of both orchestrator loops. -/
def maxIterations : Nat := 10

/-- The full response text a streaming iteration hands to the extractor: the
transcript the StreamFilter accumulated over the received chunks (the loop
buffers every chunk through Process and then reads FullContent). -/
def streamResponse (chunks : List String) : String :=
  sfFullContent (chunks.foldl (fun f ch => (sfProcess f ch).1) newStreamFilter)

/-- The streaming conversation loop, mirroring processMessageStreaming with
the transport abstracted as an oracle from the history to the chunk stream
(a transport failure anywhere in an iteration aborts the whole turn with the
error, as the Go code returns). -/
def runLoopStreaming (oracle : List ChatMsg → Except String (List String)) (impl : ToolImpl) : Nat → List ChatMsg → Except String LoopTrace
  | 0, conv => Except.ok ⟨[], [], conv⟩
  | n + 1, conv =>
    match oracle conv with
    | Except.error e => Except.error e
    | Except.ok chunks =>
      let it := runIteration impl conv (streamResponse chunks)
      if it.done then Except.ok ⟨[conv], it.executed, it.conv⟩
      else
        match runLoopStreaming oracle impl n it.conv with
        | Except.error e => Except.error e
        | Except.ok rest => Except.ok ⟨conv :: rest.requests, it.executed ++ rest.executed, rest.conv⟩

/-- The buffered conversation loop, mirroring processMessageNonStreaming with
the transport abstracted as an oracle from the history to the response body. -/
def runLoopBuffered (oracle : List ChatMsg → Except String String) (impl : ToolImpl) : Nat → List ChatMsg → Except String LoopTrace
  | 0, conv => Except.ok ⟨[], [], conv⟩
  | n + 1, conv =>
    match oracle conv with
    | Except.error e => Except.error e
    | Except.ok body =>
      let it := runIteration impl conv body
      if it.done then Except.ok ⟨[conv], it.executed, it.conv⟩
      else
        match runLoopBuffered oracle impl n it.conv with
        | Except.error e => Except.error e
        | Except.ok rest => Except.ok ⟨conv :: rest.requests, it.executed ++ rest.executed, rest.conv⟩

/-- Processes one user turn in streaming mode: append the user message and run
up to the iteration cap. -/
def processMessageStreaming (oracle : List ChatMsg → Except String (List String)) (impl : ToolImpl) (conv : List ChatMsg) (userMessage : String) : Except String LoopTrace :=
  runLoopStreaming oracle impl maxIterations (conv ++ [⟨roleUser, userMessage⟩])

/-- Processes one user turn in buffered mode. -/
def processMessageNonStreaming (oracle : List ChatMsg → Except String String) (impl : ToolImpl) (conv : List ChatMsg) (userMessage : String) : Except String LoopTrace :=
  runLoopBuffered oracle impl maxIterations (conv ++ [⟨roleUser, userMessage⟩])

/-- Preferences (assistant.go), restricted to the fields the claims touch. -/
structure Preferences where
  autoLoadContext : Bool
  maxHistoryLength : Int

/-- DefaultPreferences (assistant.go). -/
def defaultPreferences : Preferences :=
  { autoLoadContext := true, maxHistoryLength := 100 }

/-- Models Manager.AddMessage on the persisted message list (the message
payload type is abstract; the truncation logic never inspects it): append the
message, then, when the configured maximum is positive and the list exceeds
it, keep only the most recent maximum-many messages. The returned list is
what saveSession persists. -/
def addMessage {M : Type} (maxHistoryLength : Int) (messages : List M) (msg : M) : List M :=
  let appended := messages ++ [msg]
  if 0 < maxHistoryLength ∧ (appended.length : Int) > maxHistoryLength then
    appended.drop (appended.length - maxHistoryLength.toNat)
  else appended

/-! Scenario constants used by the claim theorems and their witnesses. -/

/-- The characters of the singular pattern up to and including the opening
quote of the tool name, in its canonical flat spelling: open brace, the quoted
key tool, a colon, one space, and the opening quote. -/
def litFlatPre : List Char :=
  [lbrace, dquote, 't', 'o', 'o', 'l', dquote, ':', ' ', dquote]

/-- The characters between the closing quote of the tool name and the params
object content: a comma, one space, the quoted key params, a colon, one space,
and the opening brace of the params object. -/
def litFlatMid2 : List Char :=
  [',', ' ', dquote, 'p', 'a', 'r', 'a', 'm', 's', dquote, ':', ' ', lbrace]

/-- A flat tool-call object text: the canonical spelling around a tool name t
and a params object body P, closed by the params brace and the object brace. -/
def mkFlatCall (t P : List Char) : List Char :=
  litFlatPre ++ (t ++ (dquote :: (litFlatMid2 ++ (P ++ [rbrace, rbrace]))))

/-- The tool name read_file. -/
def strReadFile : String := "read_file"

/-- The tool name git_status. -/
def strGitStatus : String := "git_status"

/-- The params key file_path. -/
def strFilePath : String := "file_path"

/-- A first file name. -/
def strATxt : String := "a.txt"

/-- A second file name. -/
def strBTxt : String := "b.txt"

/-- A tool-call object whose params value is a nested object - well-formed
JSON that the singular pattern cannot span. -/
def respC1Nested : String :=
  "\x7b\"tool\": \"read_file\", \"params\": \x7b\"opts\": \x7b\"a\": \"1\"\x7d\x7d\x7d"

/-- The call respC1Nested decodes to under json.Unmarshal. -/
def strOpts : String := "opts"

/-- The inner key of respC1Nested. -/
def strAKey : String := "a"

/-- The inner value of respC1Nested. -/
def strOne : String := "1"

/-- The decoded form of respC1Nested. -/
def tcC1Nested : ToolCallT :=
  ⟨strReadFile, some [(strOpts.toList, JValue.jobj [(strAKey.toList, JValue.jstr strOne.toList)])]⟩

/-- A tool-call object with a quoted right brace inside a params string
value - well-formed JSON that breaks the brace-free params group. -/
def respC1QuotedBrace : String :=
  "\x7b\"tool\": \"read_file\", \"params\": \x7b\"file_path\": \"a\x7d.txt\"\x7d\x7d"

/-- The file name with the brace character in it. -/
def strBraceTxt : String := "a\x7d.txt"

/-- The decoded form of respC1QuotedBrace. -/
def tcC1Quoted : ToolCallT :=
  ⟨strReadFile, some [(strFilePath.toList, JValue.jstr strBraceTxt.toList)]⟩

/-- The flat params body used by the C1 witness. -/
def strC1WitParams : String := "\"file_path\": \"a.txt\""

/-- The call the C1 witness span decodes to. -/
def tcC1Wit : ToolCallT :=
  ⟨strReadFile, some [(strFilePath.toList, JValue.jstr strATxt.toList)]⟩

/-- A tool-call object whose params string value embeds a literal newline and
a brace character (the C2 scenario). -/
def respC2Both : String :=
  "\x7b\"tool\": \"read_file\", \"params\": \x7b\"content\": \"line1\n\x7dline2\"\x7d\x7d"

/-- A tool-call object whose params string value embeds a literal newline
only: the singular pattern matches the span, and strict JSON decoding then
rejects the literal control character. -/
def respC2NewlineOnly : String :=
  "\x7b\"tool\": \"read_file\", \"params\": \x7b\"content\": \"line1\nline2\"\x7d\x7d"

/-- The params of the first read_file call. -/
def paramsA : List (List Char × JValue) := [(strFilePath.toList, JValue.jstr strATxt.toList)]

/-- The params of the second read_file call. -/
def paramsB : List (List Char × JValue) := [(strFilePath.toList, JValue.jstr strBTxt.toList)]

/-- The first read_file call. -/
def tcReadA : ToolCallT := ⟨strReadFile, some paramsA⟩

/-- The second read_file call. -/
def tcReadB : ToolCallT := ⟨strReadFile, some paramsB⟩

/-- A JSON array of two read_file calls in Go compact form: each element text
is exactly what json.Marshal emits for the decoded call, so the array-form
dedup keys collide with the singular-form raw keys. -/
def respArrayCompact : String :=
  "[\x7b\"tool\":\"read_file\",\"params\":\x7b\"file_path\":\"a.txt\"\x7d\x7d,\x7b\"tool\":\"read_file\",\"params\":\x7b\"file_path\":\"b.txt\"\x7d\x7d]"

/-- The same JSON array with one space after each colon and comma, the common
model formatting: raw singular spans then differ from the marshalled dedup
keys, so every element is collected twice. -/
def respArraySpaced : String :=
  "[\x7b\"tool\": \"read_file\", \"params\": \x7b\"file_path\": \"a.txt\"\x7d\x7d, \x7b\"tool\": \"read_file\", \"params\": \x7b\"file_path\": \"b.txt\"\x7d\x7d]"

/-- A closing plain-text model response that ends the turn. -/
def strDoneResp : String := "Both files read."

/-- The user message of the two-file scenario. -/
def userC3 : String := "read the two files"

/-- The result of reading the first file. -/
def contentsA : String := "CONTENTS OF A"

/-- The result of reading the second file. -/
def contentsB : String := "CONTENTS OF B"

/-- A model executor for the two-file scenario: read_file returns the first
contents for the first file and the second contents otherwise. -/
def implC3 : ToolImpl := fun _ p =>
  match p with
  | some fs =>
    if marshalFields fs = marshalFields paramsA then Except.ok contentsA else Except.ok contentsB
  | none => Except.ok contentsB

/-- The first numbered block header of the aggregated result message. -/
def strAggP1 : String := "[1] read_file result:\n"

/-- The second numbered block header. -/
def strAggP2 : String := "[2] read_file result:\n"

/-- The blank-line block terminator. -/
def strNN : String := "\n\n"

/-- The aggregated two-call result message the claim describes, spelled in the
association the aggregation loop produces. -/
def msgAgg (r1 r2 : String) : String :=
  ((strAggP1 ++ r1) ++ strNN) ++ (((strAggP2 ++ r2) ++ strNN) ++ "")

/-- A model oracle for the compact two-file scenario: the array on the first
request, the closing text afterwards. -/
def oracleC3 : List ChatMsg → Except String (List String) := fun conv =>
  if conv.length == 1 then Except.ok [respArrayCompact] else Except.ok [strDoneResp]

/-- The turn trace of the compact two-file scenario. -/
def c3Trace : LoopTrace :=
  match processMessageStreaming oracleC3 implC3 [] userC3 with
  | Except.ok tr => tr
  | Except.error _ => ⟨[], [], []⟩

/-- A model oracle for the spaced two-file scenario. -/
def oracleC3cx : List ChatMsg → Except String (List String) := fun conv =>
  if conv.length == 1 then Except.ok [respArraySpaced] else Except.ok [strDoneResp]

/-- The turn trace of the spaced two-file scenario. -/
def c3cxTrace : LoopTrace :=
  match processMessageStreaming oracleC3cx implC3 [] userC3 with
  | Except.ok tr => tr
  | Except.error _ => ⟨[], [], []⟩

/-- The C4 witness response: no tool-shaped span at all. -/
def c4Wit : String := " <think>hidden</think> Hello world. "

/-- The C5 witness response: the same call twice verbatim. -/
def c5Wit : String :=
  "see \x7b\"tool\": \"git_status\", \"params\": \x7b\x7d\x7d and \x7b\"tool\": \"git_status\", \"params\": \x7b\x7d\x7d"

/-- The duplicated span of the C5 witness. -/
def strC5Span : String := "\x7b\"tool\": \"git_status\", \"params\": \x7b\x7d\x7d"

/-- The span characters. -/
def c5Span : List Char := strC5Span.toList

/-- The call the C5 span decodes to. -/
def tcGitStatus : ToolCallT := ⟨strGitStatus, some []⟩

/-- The C6 input. -/
def c6Input : String := "<think>secret reasoning</think>Hello"

/-- The C6 expected display output. -/
def c6Hello : String := "Hello"

/-- Feeds one character to the filter as its own chunk, accumulating display
output, as the claim delivers the input one character at a time. -/
def feedOneChar (acc : StreamFilter × String) (c : Char) : StreamFilter × String :=
  let r := sfProcess acc.1 (String.mk [c])
  (r.1, acc.2 ++ r.2)

/-- The filter state and accumulated display after feeding the C6 input one
character at a time. -/
def c6Feed : StreamFilter × String :=
  c6Input.toList.foldl feedOneChar (newStreamFilter, "")

/-- An interaction step with a StreamFilter: Process a chunk, or Flush. -/
inductive SFOp where
  | proc : String → SFOp
  | flush : SFOp

/-- Runs a sequence of interaction steps on a filter. -/
def runOps (f : StreamFilter) : List SFOp → StreamFilter
  | [] => f
  | SFOp.proc s :: rest => runOps (sfProcess f s).1 rest
  | SFOp.flush :: rest => runOps (sfFlush f).1 rest

/-- The concatenation of every chunk a step sequence feeds to Process. -/
def chunksOf : List SFOp → List Char
  | [] => []
  | SFOp.proc s :: rest => s.toList ++ chunksOf rest
  | SFOp.flush :: rest => chunksOf rest

/-- A response carrying one extractable tool call, used by the C8 witness. -/
def respC8 : String := "\x7b\"tool\": \"git_status\", \"params\": \x7b\x7d\x7d"

/-- A streaming oracle that always answers with that response. -/
def oracleC8S : List ChatMsg → Except String (List String) := fun _ => Except.ok [respC8]

/-- A buffered oracle that always answers with that response. -/
def oracleC8B : List ChatMsg → Except String String := fun _ => Except.ok respC8

/-- A tool result used by witnesses. -/
def strClean : String := "clean"

/-- An executor whose tools always succeed. -/
def implOkClean : ToolImpl := fun _ _ => Except.ok strClean

/-- The user message of the C8 witness. -/
def userC8 : String := "check everything"

/-- The unregistered tool name of the C9 scenario. -/
def strFrob : String := "frobnicate"

/-- A response calling the unregistered tool. -/
def respFrob : String := "\x7b\"tool\": \"frobnicate\", \"params\": \x7b\x7d\x7d"

/-- The call respFrob decodes to. -/
def tcFrob : ToolCallT := ⟨strFrob, some []⟩

set_option maxRecDepth 40000

/-! Helper lemmas. -/

/-- Scanning an empty text yields no matches, regardless of fuel. -/
theorem scanSingularAux_nil (fuel pos : Nat) : scanSingularAux fuel [] pos = [] := by
  cases fuel <;> simp [scanSingularAux]

/-- The quoted-group tail scanner consumes exactly a quote-free run up to the
closing quote. -/
theorem tuqAux_append (t r : List Char) (h : ∀ c ∈ t, c ≠ dquote) :
    takeUntilQuoteAux (t ++ dquote :: r) = some (t, r) := by
  induction t with
  | nil => simp [takeUntilQuoteAux]
  | cons c t ih =>
    have hc : (c == dquote) = false := by
      simp only [beq_eq_false_iff_ne]
      exact h c (by simp)
    simp [takeUntilQuoteAux, hc, ih (fun x hx => h x (by simp [hx]))]

/-- The quoted group consumes exactly a non-empty quote-free run up to the
closing quote. -/
theorem takeUntilQuote_append (c : Char) (t r : List Char)
    (hc : c ≠ dquote) (h : ∀ x ∈ t, x ≠ dquote) :
    takeUntilQuote (c :: (t ++ dquote :: r)) = some (c :: t, r) := by
  have hcb : (c == dquote) = false := by
    simp only [beq_eq_false_iff_ne]; exact hc
  simp [takeUntilQuote, hcb, tuqAux_append t r h]

/-- The params group consumes exactly a brace-free run up to the closing
brace. -/
theorem takeUntilBrace_append (P r : List Char)
    (h : ∀ c ∈ P, c ≠ lbrace ∧ c ≠ rbrace) :
    takeUntilBrace (P ++ rbrace :: r) = some r := by
  induction P with
  | nil => simp [takeUntilBrace]
  | cons c P ih =>
    have h1 : (c == rbrace) = false := by
      simp only [beq_eq_false_iff_ne]; exact (h c (by simp)).2
    have h2 : (c == lbrace) = false := by
      simp only [beq_eq_false_iff_ne]; exact (h c (by simp)).1
    simp [takeUntilBrace, h1, h2, ih (fun x hx => h x (by simp [hx]))]

/-- A pattern whose first character does not occur in the haystack never
occurs in it. -/
theorem splitFirst_none_of_head_notMem (p0 : Char) (ps : List Char) (cs : List Char)
    (h : p0 ∉ cs) : splitFirst (p0 :: ps) cs = none := by
  induction cs with
  | nil => simp [splitFirst, isPrefixL]
  | cons c tl ih =>
    have hne : (p0 == c) = false := by
      simp only [beq_eq_false_iff_ne]
      intro he; exact h (by simp [he])
    simp [splitFirst, isPrefixL, hne, ih (fun hm => h (by simp [hm]))]

/-- The opener search finds nothing in text with no left angle bracket. -/
theorem splitFirst_thinkOpen_none (cs : List Char) (h : '<' ∉ cs) :
    splitFirst litThinkOpen cs = none :=
  splitFirst_none_of_head_notMem '<' ['t', 'h', 'i', 'n', 'k', '>'] cs h

/-- Think-block removal is the identity on text with no left angle bracket. -/
theorem removeThinkBlocks_of_no_lt (fuel : Nat) (cs : List Char) (h : '<' ∉ cs) :
    removeThinkBlocks fuel cs = cs := by
  cases fuel with
  | zero => rfl
  | succ f =>
    rw [removeThinkBlocks, splitFirst_thinkOpen_none cs h]

/-- The unmatched-closer search finds nothing in text with no left angle
bracket. -/
theorem splitFirst_thinkClose_none (cs : List Char) (h : '<' ∉ cs) :
    splitFirst litThinkClose cs = none :=
  splitFirst_none_of_head_notMem '<' ['/', 't', 'h', 'i', 'n', 'k', '>'] cs h

/-- Cleaning is the identity on trimmed text with no left angle bracket. -/
theorem cleanResponseL_of_no_lt_trim (cs : List Char) (h : '<' ∉ cs)
    (ht : trimGoL cs = cs) : cleanResponseL cs = cs := by
  simp only [cleanResponseL, removeThinkBlocks_of_no_lt _ _ h, splitFirst_thinkClose_none cs h]
  exact ht

/-- Dropping while a predicate fails at the head is the identity. -/
theorem dropWhile_eq_self_of_head (f : Char → Bool) (cs : List Char)
    (h : ∀ c, cs.head? = some c → f c = false) : cs.dropWhile f = cs := by
  cases cs with
  | nil => rfl
  | cons c tl => simp [List.dropWhile, h c rfl]

/-- Trimming is the identity when neither end is whitespace. -/
theorem trimGoL_eq_self (cs : List Char)
    (h1 : ∀ c, cs.head? = some c → isGoSpace c = false)
    (h2 : ∀ c, cs.getLast? = some c → isGoSpace c = false) : trimGoL cs = cs := by
  unfold trimGoL
  rw [dropWhile_eq_self_of_head _ _ h1]
  rw [dropWhile_eq_self_of_head _ _ (fun c hc => h2 c (by rwa [List.head?_reverse] at hc))]
  exact List.reverse_reverse cs

/-- The array pattern finds nothing in text with no left bracket. -/
theorem findArrayAux_none (fuel : Nat) (cs : List Char) (h : lbrack ∉ cs) :
    findArrayAux fuel cs = none := by
  induction fuel generalizing cs with
  | zero => rfl
  | succ f ih =>
    cases cs with
    | nil => rfl
    | cons c tl =>
      have hne : (c == lbrack) = false := by
        simp only [beq_eq_false_iff_ne]
        intro he; exact h (by simp [he])
      rw [findArrayAux, if_neg (by simp [hne])]
      exact ih tl (fun hm => h (by simp [hm]))

/-- The staged matcher passes the canonical flat prefix. -/
theorem tryMatch_flatPre (rest : List Char) :
    tryMatchSingular (litFlatPre ++ rest) = tmTail1 rest := rfl

/-- The staged matcher passes the canonical flat middle. -/
theorem tmTail2_flatMid2 (rest : List Char) :
    tmTail2 (litFlatMid2 ++ rest) = tmTail3 rest := rfl

/-- The staged matcher consumes a quote-free tool name. -/
theorem tmTail1_flat (c : Char) (t rest : List Char) (hc : c ≠ dquote)
    (ht : ∀ x ∈ t, x ≠ dquote) :
    tmTail1 ((c :: t) ++ dquote :: rest) = tmTail2 rest := by
  simp [tmTail1, takeUntilQuote_append c t rest hc ht]

/-- The staged matcher consumes a brace-free params body. -/
theorem tmTail3_flat (P r : List Char) (hP : ∀ c ∈ P, c ≠ lbrace ∧ c ≠ rbrace) :
    tmTail3 (P ++ rbrace :: r) = expectChar rbrace (dropWsRe r) := by
  simp [tmTail3, takeUntilBrace_append P r hP]

/-- The singular pattern matches a flat tool-call object exactly, leaving
nothing. -/
theorem tryMatchSingular_flat (t P : List Char) (ht : t ≠ [])
    (htq : ∀ c ∈ t, c ≠ dquote) (hP : ∀ c ∈ P, c ≠ lbrace ∧ c ≠ rbrace) :
    tryMatchSingular (mkFlatCall t P) = some [] := by
  obtain ⟨c, t2, rfl⟩ : ∃ c t2, t = c :: t2 := by
    cases t with
    | nil => exact absurd rfl ht
    | cons c t2 => exact ⟨c, t2, rfl⟩
  show tryMatchSingular
      (litFlatPre ++ ((c :: t2) ++ (dquote :: (litFlatMid2 ++ (P ++ [rbrace, rbrace]))))) = some []
  rw [tryMatch_flatPre]
  rw [tmTail1_flat c t2 _ (htq c (by simp)) (fun x hx => htq x (by simp [hx]))]
  rw [tmTail2_flatMid2]
  have hsplit : P ++ [rbrace, rbrace] = P ++ rbrace :: [rbrace] := rfl
  rw [hsplit, tmTail3_flat P [rbrace] hP]
  rfl

/-- The scanner finds exactly one match, at offset zero, on a flat tool-call
object standing alone. -/
theorem scanSingular_flat (t P : List Char) (ht : t ≠ [])
    (htq : ∀ c ∈ t, c ≠ dquote) (hP : ∀ c ∈ P, c ≠ lbrace ∧ c ≠ rbrace) :
    scanSingular (mkFlatCall t P) = [⟨0, mkFlatCall t P⟩] := by
  have hm := tryMatchSingular_flat t P ht htq hP
  obtain ⟨tl, hobt⟩ : ∃ tl, mkFlatCall t P = lbrace :: tl := ⟨_, rfl⟩
  rw [hobt] at hm ⊢
  unfold scanSingular
  rw [List.length_cons]
  simp [scanSingularAux, hm, scanSingularAux_nil]

/-- Membership in a flat tool-call object reduces to its parts. -/
theorem notMem_mkFlatCall (x : Char) (t P : List Char)
    (hpre : x ∉ litFlatPre) (hmid : x ∉ litFlatMid2) (hdq : x ≠ dquote)
    (hrb : x ≠ rbrace) (hT : x ∉ t) (hPm : x ∉ P) : x ∉ mkFlatCall t P := by
  intro hmem
  rcases List.mem_append.mp hmem with h1 | h2
  · exact hpre h1
  rcases List.mem_append.mp h2 with h3 | h4
  · exact hT h3
  rcases List.mem_cons.mp h4 with h5 | h6
  · exact hdq h5
  rcases List.mem_append.mp h6 with h7 | h8
  · exact hmid h7
  rcases List.mem_append.mp h8 with h9 | h10
  · exact hPm h9
  · rcases List.mem_cons.mp h10 with h11 | h12
    · exact hrb h11
    · rcases List.mem_cons.mp h12 with h13 | h14
      · exact hrb h13
      · exact absurd h14 (List.not_mem_nil x)

/-- A flat tool-call object ends with the closing brace. -/
theorem mkFlatCall_getLast (t P : List Char) : (mkFlatCall t P).getLast? = some rbrace := by
  rw [← List.head?_reverse]
  simp [mkFlatCall, List.reverse_append]

/-- Cleaning is the identity on a flat tool-call object free of angle
brackets. -/
theorem cleanResponseL_mkFlatCall (t P : List Char)
    (htq : ∀ c ∈ t, c ≠ '<') (hP : ∀ c ∈ P, c ≠ '<') :
    cleanResponseL (mkFlatCall t P) = mkFlatCall t P := by
  have hlt : '<' ∉ mkFlatCall t P :=
    notMem_mkFlatCall '<' t P (by decide) (by decide) (by decide) (by decide)
      (fun hm => htq '<' hm rfl) (fun hm => hP '<' hm rfl)
  refine cleanResponseL_of_no_lt_trim _ hlt (trimGoL_eq_self _ ?_ ?_)
  · intro c hc
    have hce : c = lbrace := by
      have hh : (mkFlatCall t P).head? = some lbrace := rfl
      rw [hh] at hc
      exact (Option.some_inj.mp hc).symm
    rw [hce]
    decide
  · intro c hc
    rw [mkFlatCall_getLast] at hc
    rw [(Option.some_inj.mp hc).symm]
    decide

/-- The StreamFilter transcript after any interaction sequence is the
concatenation of the starting transcript and every chunk fed to Process. -/
theorem runOps_fullContent (ops : List SFOp) :
    ∀ f : StreamFilter, (runOps f ops).fullContent = f.fullContent ++ chunksOf ops := by
  induction ops with
  | nil => intro f; simp [runOps, chunksOf]
  | cons op rest ih =>
    intro f
    cases op with
    | proc s => simp [runOps, chunksOf, ih, sfProcess, List.append_assoc]
    | flush => simp [runOps, chunksOf, ih, sfFlush]

/-- An iteration whose response carries at least one extracted call does not
end the turn. -/
theorem runIteration_not_done (impl : ToolImpl) (conv : List ChatMsg) (r : String)
    (h : (parseToolCalls r).1 ≠ []) : (runIteration impl conv r).done = false := by
  unfold runIteration
  cases hpr : (parseToolCalls r).1 with
  | nil => exact absurd hpr h
  | cons a l => simp [hpr]

/-- When every streaming response carries a call, the loop runs its full
budget: exactly as many requests as the bound, without error. -/
theorem runLoopStreaming_saturates (oracle : List ChatMsg → Except String (List String))
    (impl : ToolImpl)
    (hOk : ∀ h, ∃ chunks, oracle h = Except.ok chunks ∧
      (parseToolCalls (streamResponse chunks)).1 ≠ []) :
    ∀ n conv, ∃ tr, runLoopStreaming oracle impl n conv = Except.ok tr ∧
      tr.requests.length = n := by
  intro n
  induction n with
  | zero => intro conv; exact ⟨⟨[], [], conv⟩, rfl, rfl⟩
  | succ m ih =>
    intro conv
    obtain ⟨chunks, hc, hne⟩ := hOk conv
    obtain ⟨rest, hrest, hlen⟩ := ih (runIteration impl conv (streamResponse chunks)).conv
    refine ⟨⟨conv :: rest.requests,
      (runIteration impl conv (streamResponse chunks)).executed ++ rest.executed, rest.conv⟩,
      ?_, by simp [hlen]⟩
    rw [runLoopStreaming, hc]
    simp only [runIteration_not_done impl conv _ hne, Bool.false_eq_true, if_false, hrest]

/-- The buffered analogue of runLoopStreaming_saturates. -/
theorem runLoopBuffered_saturates (oracle : List ChatMsg → Except String String)
    (impl : ToolImpl)
    (hOk : ∀ h, ∃ body, oracle h = Except.ok body ∧ (parseToolCalls body).1 ≠ []) :
    ∀ n conv, ∃ tr, runLoopBuffered oracle impl n conv = Except.ok tr ∧
      tr.requests.length = n := by
  intro n
  induction n with
  | zero => intro conv; exact ⟨⟨[], [], conv⟩, rfl, rfl⟩
  | succ m ih =>
    intro conv
    obtain ⟨body, hc, hne⟩ := hOk conv
    obtain ⟨rest, hrest, hlen⟩ := ih (runIteration impl conv body).conv
    refine ⟨⟨conv :: rest.requests,
      (runIteration impl conv body).executed ++ rest.executed, rest.conv⟩,
      ?_, by simp [hlen]⟩
    rw [runLoopBuffered, hc]
    simp only [runIteration_not_done impl conv _ hne, Bool.false_eq_true, if_false, hrest]

/-! Claim theorems. -/

/-- Claim C1, counterexample: the claim says the extractor locates the
complete balanced span of every well-formed tool-call object whose params
values hold nested objects or brace characters inside strings. At two such
objects - one with a nested object in params, one with a brace inside a
string value - the object JSON-decodes cleanly to the expected call, yet the
extractor returns zero calls: the singular pattern forbids braces inside the
params group, and there is no brace-depth scanner in the code. -/
theorem claim_C1_counterexample :
    (decodeToolCall respC1Nested.toList = some tcC1Nested ∧
      (parseToolCalls respC1Nested).1 = []) ∧
    (decodeToolCall respC1QuotedBrace.toList = some tcC1Quoted ∧
      (parseToolCalls respC1QuotedBrace).1 = []) :=
  ⟨⟨rfl, rfl⟩, ⟨rfl, rfl⟩⟩

/-- Claim C1, amended: the extractor locates a tool-call object standing
alone and returns its decoded call exactly when the params object is flat -
its text holds no brace characters at all (no nested objects, no braces in
strings). For every non-empty quote-free tool name and brace-free params body
(both free of angle and square brackets, which would engage the think-tag and
array paths) whose span decodes to a call with a non-empty name, the extractor
returns exactly that call and empty leading prose. -/
theorem claim_C1_amended (t P : List Char) (ht : t ≠ [])
    (htq : ∀ c ∈ t, c ≠ dquote ∧ c ≠ '<' ∧ c ≠ lbrack)
    (hP : ∀ c ∈ P, c ≠ lbrace ∧ c ≠ rbrace ∧ c ≠ '<' ∧ c ≠ lbrack)
    (tc : ToolCallT) (hdec : decodeToolCall (mkFlatCall t P) = some tc)
    (htool : tc.tool ≠ "") :
    parseToolCalls (String.mk (mkFlatCall t P)) = ([tc], "") := by
  have hclean : cleanResponseL (mkFlatCall t P) = mkFlatCall t P :=
    cleanResponseL_mkFlatCall t P (fun c hc => (htq c hc).2.1) (fun c hc => (hP c hc).2.2.1)
  have hscan : scanSingular (mkFlatCall t P) = [⟨0, mkFlatCall t P⟩] :=
    scanSingular_flat t P ht (fun c hc => (htq c hc).1)
      (fun c hc => ⟨(hP c hc).1, (hP c hc).2.1⟩)
  have hbr : lbrack ∉ mkFlatCall t P :=
    notMem_mkFlatCall lbrack t P (by decide) (by decide) (by decide) (by decide)
      (fun hm => (htq lbrack hm).2.2 rfl) (fun hm => (hP lbrack hm).2.2.2 rfl)
  have harr : findArray (mkFlatCall t P) = none := findArrayAux_none _ _ hbr
  have htl : (String.mk (mkFlatCall t P)).toList = mkFlatCall t P := rfl
  unfold parseToolCalls parseToolCallsL
  simp only [htl, hclean, hscan, harr]
  simp [collectSingular, hdec, htool]

/-- Claim C1, witness: the amended theorem at the flat read_file call. -/
theorem claim_C1_amended_witness :
    parseToolCalls (String.mk (mkFlatCall strReadFile.toList strC1WitParams.toList)) =
      ([tcC1Wit], "") :=
  claim_C1_amended strReadFile.toList strC1WitParams.toList (by decide) (by decide)
    (by decide) tcC1Wit rfl (by decide)

/-- Claim C2, counterexample: the claim says an object whose params string
value embeds a literal newline and a brace still parses into one tool call
after normalization. At such an object the extractor returns zero calls, and
no normalization exists: strict decoding of the span rejects it outright. -/
theorem claim_C2_counterexample :
    (parseToolCalls respC2Both).1 = [] ∧ decodeToolCall respC2Both.toList = none :=
  ⟨rfl, rfl⟩

/-- Claim C2, amended: objects whose params string values embed literal
control characters are not parsed; the code has no normalization step. With
both a newline and a brace in the value the singular pattern cannot even span
the object; with a newline alone the pattern matches the whole span but
json.Unmarshal rejects the literal control character, so the extractor still
returns zero calls. -/
theorem claim_C2_amended :
    (parseToolCalls respC2Both).1 = [] ∧
    scanSingular (cleanResponseL respC2NewlineOnly.toList) =
      [⟨0, respC2NewlineOnly.toList⟩] ∧
    decodeToolCall respC2NewlineOnly.toList = none ∧
    (parseToolCalls respC2NewlineOnly).1 = [] :=
  ⟨rfl, rfl, rfl, rfl⟩

/-- Claim C3, counterexample: the claim says a response that is a JSON array
of exactly two read_file calls makes the orchestrator execute exactly those
two calls. In the streaming scenario whose first response is the two-call
array in its common spaced formatting, the orchestrator dispatches four calls,
not two: both elements match the singular pattern (raw-text dedup keys) and
the array decode re-adds them under different marshalled keys. -/
theorem claim_C3_counterexample :
    c3cxTrace.executed.length = 4 ∧ ∀ x y, c3cxTrace.executed ≠ [x, y] := by
  refine ⟨rfl, ?_⟩
  intro x y h
  have h4 : c3cxTrace.executed.length = 4 := rfl
  rw [h] at h4
  simp at h4

/-- Claim C3, amended: when the two-call read_file array is formatted in Go
compact form (each element text exactly json.Marshal of its call, so both
dedup keys collide), the orchestrator executes exactly the two calls in array
order, appends the one aggregated user message in the numbered form the claim
gives, and the next model request receives that message in its history: in
the closed two-request streaming scenario the second request ends with it. -/
theorem claim_C3_amended (impl : ToolImpl) (conv : List ChatMsg) (r1 r2 : String)
    (hA : impl strReadFile (some paramsA) = Except.ok r1)
    (hB : impl strReadFile (some paramsB) = Except.ok r2) :
    (runIteration impl conv respArrayCompact).executed =
      [(strReadFile, some paramsA), (strReadFile, some paramsB)] ∧
    (runIteration impl conv respArrayCompact).done = false ∧
    (runIteration impl conv respArrayCompact).conv =
      conv ++ [⟨roleAssistant, respArrayCompact⟩, ⟨roleUser, msgAgg r1 r2⟩] ∧
    c3Trace.requests.length = 2 ∧
    c3Trace.requests.getLastD [] =
      [⟨roleUser, userC3⟩, ⟨roleAssistant, respArrayCompact⟩,
        ⟨roleUser, msgAgg contentsA contentsB⟩] := by
  have hpt : parseToolCalls respArrayCompact = ([tcReadA, tcReadB], String.mk [lbrack]) := rfl
  have hexecA : executeToolReg impl strReadFile (some paramsA) = Except.ok r1 := by
    unfold executeToolReg
    rw [if_pos (by decide : registeredToolNames.contains strReadFile = true)]
    exact hA
  have hexecB : executeToolReg impl strReadFile (some paramsB) = Except.ok r2 := by
    unfold executeToolReg
    rw [if_pos (by decide : registeredToolNames.contains strReadFile = true)]
    exact hB
  refine ⟨?_, ?_, ?_, rfl, rfl⟩
  · unfold runIteration
    simp [hpt]
    exact ⟨⟨rfl, rfl⟩, rfl, rfl⟩
  · unfold runIteration
    simp [hpt]
  · unfold runIteration
    simp only [hpt]
    simp only [buildAllResults, formatResultBlock, tcReadA, tcReadB, hexecA, hexecB]
    simp [msgAgg, List.append_assoc]
    rfl

/-- Claim C3, witness: the amended theorem at the concrete scenario executor. -/
theorem claim_C3_amended_witness :
    (runIteration implC3 [] respArrayCompact).executed =
      [(strReadFile, some paramsA), (strReadFile, some paramsB)] ∧
    (runIteration implC3 [] respArrayCompact).done = false ∧
    (runIteration implC3 [] respArrayCompact).conv =
      [] ++ [⟨roleAssistant, respArrayCompact⟩, ⟨roleUser, msgAgg contentsA contentsB⟩] ∧
    c3Trace.requests.length = 2 ∧
    c3Trace.requests.getLastD [] =
      [⟨roleUser, userC3⟩, ⟨roleAssistant, respArrayCompact⟩,
        ⟨roleUser, msgAgg contentsA contentsB⟩] :=
  claim_C3_amended implC3 [] contentsA contentsB rfl rfl

/-- Claim C4: a response in which the two tool-call patterns find nothing
yields an empty call list and leading prose equal to the think-stripped,
trimmed input. -/
theorem claim_C4 (s : String)
    (hscan : scanSingular (cleanResponseL s.toList) = [])
    (harr : findArray (cleanResponseL s.toList) = none) :
    (parseToolCalls s).1 = [] ∧ (parseToolCalls s).2 = cleanResponse s := by
  unfold parseToolCalls parseToolCallsL
  simp only [hscan, harr]
  simp [collectSingular, cleanResponse]

/-- Claim C4, witness: a prose-and-think-tag response with no tool-shaped
span. -/
theorem claim_C4_witness :
    (parseToolCalls c4Wit).1 = [] ∧ (parseToolCalls c4Wit).2 = cleanResponse c4Wit :=
  claim_C4 c4Wit rfl rfl

/-- Claim C5: when the scanner finds exactly two matches with
character-identical spans, the array pattern finds nothing, and the span
decodes to a call with a non-empty name, the extractor returns exactly one
call and splits the prose at the first occurrence. -/
theorem claim_C5 (s : String) (p1 p2 : Nat) (sp : List Char) (tc : ToolCallT)
    (hscan : scanSingular (cleanResponseL s.toList) = [⟨p1, sp⟩, ⟨p2, sp⟩])
    (harr : findArray (cleanResponseL s.toList) = none)
    (hdec : decodeToolCall sp = some tc) (htool : tc.tool ≠ "") :
    (parseToolCalls s).1 = [tc] ∧
    (parseToolCalls s).2 =
      (if p1 > 0 then String.mk (trimGoL ((cleanResponseL s.toList).take p1)) else "") := by
  unfold parseToolCalls parseToolCallsL
  simp only [hscan, harr]
  simp only [collectSingular, hdec, htool]
  simp [collectSingular, hdec, htool]
  split
  · simp
  · simp

/-- Claim C5, witness: the same git_status call twice verbatim, at offsets 4
and 45; one call survives and the prose is the text before offset 4. -/
theorem claim_C5_witness :
    (parseToolCalls c5Wit).1 = [tcGitStatus] ∧
    (parseToolCalls c5Wit).2 =
      (if 4 > 0 then String.mk (trimGoL ((cleanResponseL c5Wit.toList).take 4)) else "") :=
  claim_C5 c5Wit 4 45 c5Span tcGitStatus rfl rfl rfl (by decide)

/-- Claim C6: feeding the think-tagged input one character at a time, the
concatenation of every Process return value and the final Flush is exactly
the text after the tag, and FullContent is the complete original input. -/
theorem claim_C6 :
    c6Feed.2 ++ (sfFlush c6Feed.1).2 = c6Hello ∧ sfFullContent c6Feed.1 = c6Input :=
  ⟨rfl, rfl⟩

/-- Claim C7: after any sequence of Process and Flush steps on a fresh
filter, FullContent is exactly the concatenation of every chunk ever fed to
Process, regardless of the filtering state. -/
theorem claim_C7 (ops : List SFOp) :
    sfFullContent (runOps newStreamFilter ops) = String.mk (chunksOf ops) := by
  unfold sfFullContent
  rw [runOps_fullContent ops newStreamFilter]
  rfl

/-- Claim C8: when every model response carries at least one extractable tool
call, both orchestrator modes make exactly ten model requests - the iteration
cap - and return without error. -/
theorem claim_C8 (oracleS : List ChatMsg → Except String (List String))
    (oracleB : List ChatMsg → Except String String) (impl : ToolImpl)
    (conv : List ChatMsg) (u : String)
    (hS : ∀ h, ∃ chunks, oracleS h = Except.ok chunks ∧
      (parseToolCalls (streamResponse chunks)).1 ≠ [])
    (hB : ∀ h, ∃ body, oracleB h = Except.ok body ∧ (parseToolCalls body).1 ≠ []) :
    (∃ tr, processMessageStreaming oracleS impl conv u = Except.ok tr ∧
      tr.requests.length = 10) ∧
    (∃ tr, processMessageNonStreaming oracleB impl conv u = Except.ok tr ∧
      tr.requests.length = 10) := by
  unfold processMessageStreaming processMessageNonStreaming
  exact ⟨runLoopStreaming_saturates oracleS impl hS maxIterations (conv ++ [⟨roleUser, u⟩]),
    runLoopBuffered_saturates oracleB impl hB maxIterations (conv ++ [⟨roleUser, u⟩])⟩

/-- Claim C8, witness: oracles that always answer with a git_status call. -/
theorem claim_C8_witness :
    (∃ tr, processMessageStreaming oracleC8S implOkClean [] userC8 = Except.ok tr ∧
      tr.requests.length = 10) ∧
    (∃ tr, processMessageNonStreaming oracleC8B implOkClean [] userC8 = Except.ok tr ∧
      tr.requests.length = 10) :=
  claim_C8 oracleC8S oracleC8B implOkClean [] userC8
    (fun _ => ⟨[respC8], rfl,
      by simp [show parseToolCalls (streamResponse [respC8]) = ([tcGitStatus], "") from rfl]⟩)
    (fun _ => ⟨respC8, rfl,
      by simp [show parseToolCalls respC8 = ([tcGitStatus], "") from rfl]⟩)

/-- Claim C9: dispatch of an unregistered tool name reports the unknown-tool
error (never a crash - the lookup is total), the iteration converts it into
the textual Error result inside the synthetic user message, and the turn
continues rather than aborting. -/
theorem claim_C9 (impl : ToolImpl) (name : String)
    (params : Option (List (List Char × JValue))) (conv : List ChatMsg)
    (r : String) (d : String)
    (hreg : registeredToolNames.contains name = false)
    (hparse : parseToolCalls r = ([⟨name, params⟩], d)) :
    executeToolReg impl name params = Except.error ("unknown tool: " ++ name) ∧
    (runIteration impl conv r).done = false ∧
    (runIteration impl conv r).conv =
      conv ++ [⟨roleAssistant, r⟩,
        ⟨roleUser, "Tool result:\n" ++ ("Error: " ++ ("unknown tool: " ++ name))⟩] := by
  have hexec : executeToolReg impl name params = Except.error ("unknown tool: " ++ name) := by
    unfold executeToolReg
    rw [hreg]
    simp
  refine ⟨hexec, ?_, ?_⟩
  · unfold runIteration
    simp [hparse]
  · unfold runIteration
    simp only [hparse]
    simp [buildAllResults, formatResultBlock, hexec]

/-- Claim C9, witness: the frobnicate scenario. -/
theorem claim_C9_witness :
    executeToolReg implOkClean strFrob (some []) =
      Except.error ("unknown tool: " ++ strFrob) ∧
    (runIteration implOkClean [] respFrob).done = false ∧
    (runIteration implOkClean [] respFrob).conv =
      [] ++ [⟨roleAssistant, respFrob⟩,
        ⟨roleUser, "Tool result:\n" ++ ("Error: " ++ ("unknown tool: " ++ strFrob))⟩] :=
  claim_C9 implOkClean strFrob (some []) [] respFrob "" rfl rfl

/-- Claim C10: with a positive configured maximum, AddMessage never leaves
more than the maximum many persisted messages; when the append exceeds the
maximum the session keeps exactly the most recent maximum-many messages; and
the default maximum is one hundred. -/
theorem claim_C10 {M : Type} (maxLen : Int) (msgs : List M) (m : M)
    (hpos : 0 < maxLen) :
    ((addMessage maxLen msgs m).length : Int) ≤ maxLen ∧
    (((msgs ++ [m]).length : Int) > maxLen →
      addMessage maxLen msgs m =
        (msgs ++ [m]).drop ((msgs ++ [m]).length - maxLen.toNat)) ∧
    defaultPreferences.maxHistoryLength = 100 := by
  unfold addMessage
  by_cases h : ((msgs ++ [m]).length : Int) > maxLen
  · rw [if_pos ⟨hpos, h⟩]
    refine ⟨?_, fun _ => rfl, rfl⟩
    rw [List.length_drop]
    omega
  · rw [if_neg (by tauto)]
    exact ⟨by omega, fun hc => absurd hc h, rfl⟩

/-- Claim C10, witness: a maximum of two, two existing messages, one append. -/
theorem claim_C10_witness :
    ((addMessage 2 [0, 1] (2 : Nat)).length : Int) ≤ 2 ∧
    ((([0, 1] ++ [2]).length : Int) > 2 →
      addMessage 2 [0, 1] (2 : Nat) =
        ([0, 1] ++ [2]).drop (([0, 1] ++ [2]).length - (2 : Int).toNat)) ∧
    defaultPreferences.maxHistoryLength = 100 :=
  claim_C10 2 [0, 1] 2 (by decide)

end Taracode
